import Mathlib

/-!
Verification of the analytic core of regelungstechnik_master.py: transfer-function
composition, closed-loop reduction, stability/oscillation classification, the Bode
phase-crossing annotation, the root-locus centroid, and the coefficient-list parser.

Numbers: the script computes with Python/numpy complex floats; we embed them as
Gaussian rationals (pairs of rationals with complex multiplication), the standard
exact denotation of the float arithmetic used here.  Coefficient lists are kept
highest-degree-first exactly as numpy stores them.
-/

set_option maxHeartbeats 1000000

/-- Gaussian rational: exact model of the complex scalars used by the script. -/
structure Cplx where
  re : ℚ
  im : ℚ
deriving DecidableEq, Repr

namespace Cplx

/-- Componentwise extensionality for Gaussian rationals. -/
theorem ceq : ∀ {a b : Cplx}, a.re = b.re → a.im = b.im → a = b
  | ⟨_, _⟩, ⟨_, _⟩, rfl, rfl => rfl

/-- Addition, as numpy adds complex numbers componentwise. -/
def add (a b : Cplx) : Cplx := ⟨a.re + b.re, a.im + b.im⟩

/-- Complex multiplication (ac − bd, ad + bc). -/
def mul (a b : Cplx) : Cplx := ⟨a.re * b.re - a.im * b.im, a.re * b.im + a.im * b.re⟩

/-- Negation. -/
def neg (a : Cplx) : Cplx := ⟨-a.re, -a.im⟩

instance : Zero Cplx := ⟨⟨0, 0⟩⟩
instance : One Cplx := ⟨⟨1, 0⟩⟩
instance : Add Cplx := ⟨add⟩
instance : Mul Cplx := ⟨mul⟩
instance : Neg Cplx := ⟨neg⟩

theorem add_def (a b : Cplx) : a + b = ⟨a.re + b.re, a.im + b.im⟩ := rfl

theorem mul_def (a b : Cplx) : a * b = ⟨a.re * b.re - a.im * b.im, a.re * b.im + a.im * b.re⟩ :=
  rfl

theorem neg_def (a : Cplx) : -a = ⟨-a.re, -a.im⟩ := rfl

theorem zero_def : (0 : Cplx) = ⟨0, 0⟩ := rfl

theorem one_def : (1 : Cplx) = ⟨1, 0⟩ := rfl

instance : CommRing Cplx where
  add_assoc a b c := ceq (by simp [add_def]; ring) (by simp [add_def]; ring)
  zero_add a := ceq (by simp [add_def, zero_def]) (by simp [add_def, zero_def])
  add_zero a := ceq (by simp [add_def, zero_def]) (by simp [add_def, zero_def])
  add_comm a b := ceq (by simp [add_def]; ring) (by simp [add_def]; ring)
  nsmul := nsmulRec
  mul_assoc a b c := ceq (by simp [mul_def]; ring) (by simp [mul_def]; ring)
  one_mul a := ceq (by simp [mul_def, one_def]) (by simp [mul_def, one_def])
  mul_one a := ceq (by simp [mul_def, one_def]) (by simp [mul_def, one_def])
  left_distrib a b c := ceq (by simp [mul_def, add_def]; ring) (by simp [mul_def, add_def]; ring)
  right_distrib a b c := ceq (by simp [mul_def, add_def]; ring) (by simp [mul_def, add_def]; ring)
  zero_mul a := ceq (by simp [mul_def, zero_def]) (by simp [mul_def, zero_def])
  mul_zero a := ceq (by simp [mul_def, zero_def]) (by simp [mul_def, zero_def])
  zsmul := zsmulRec
  neg_add_cancel a := ceq (by simp [add_def, neg_def, zero_def]) (by simp [add_def, neg_def, zero_def])
  mul_comm a b := ceq (by simp [mul_def]; ring) (by simp [mul_def]; ring)

@[simp] theorem add_re (a b : Cplx) : (a + b).re = a.re + b.re := rfl
@[simp] theorem add_im (a b : Cplx) : (a + b).im = a.im + b.im := rfl
@[simp] theorem mul_re (a b : Cplx) : (a * b).re = a.re * b.re - a.im * b.im := rfl
@[simp] theorem mul_im (a b : Cplx) : (a * b).im = a.re * b.im + a.im * b.re := rfl
@[simp] theorem neg_re (a : Cplx) : (-a).re = -a.re := rfl
@[simp] theorem neg_im (a : Cplx) : (-a).im = -a.im := rfl
@[simp] theorem zero_re : (0 : Cplx).re = 0 := rfl
@[simp] theorem zero_im : (0 : Cplx).im = 0 := rfl
@[simp] theorem one_re : (1 : Cplx).re = 1 := rfl
@[simp] theorem one_im : (1 : Cplx).im = 0 := rfl

/-- Complex reciprocal, as numpy divides complex numbers. -/
instance : Inv Cplx :=
  ⟨fun a => ⟨a.re / (a.re ^ 2 + a.im ^ 2), -a.im / (a.re ^ 2 + a.im ^ 2)⟩⟩

instance : Div Cplx := ⟨fun a b => a * b⁻¹⟩

/-- Embedding of a real (rational) scalar. -/
def ofRat (x : ℚ) : Cplx := ⟨x, 0⟩

instance : NoZeroDivisors Cplx where
  eq_zero_or_eq_zero_of_mul_eq_zero {a b} h := by
    have h1 : a.re * b.re - a.im * b.im = 0 := by
      have := congrArg Cplx.re h
      simp only [mul_re, zero_re] at this
      exact this
    have h2 : a.re * b.im + a.im * b.re = 0 := by
      have := congrArg Cplx.im h
      simp only [mul_im, zero_im] at this
      exact this
    have key : (a.re ^ 2 + a.im ^ 2) * (b.re ^ 2 + b.im ^ 2) = 0 := by
      linear_combination (a.re * b.re - a.im * b.im) * h1 +
        (a.re * b.im + a.im * b.re) * h2
    rcases mul_eq_zero.mp key with hA | hB
    · have hre : a.re ^ 2 = 0 := le_antisymm (by nlinarith [sq_nonneg a.im]) (sq_nonneg a.re)
      have him : a.im ^ 2 = 0 := le_antisymm (by nlinarith [sq_nonneg a.re]) (sq_nonneg a.im)
      exact Or.inl (ceq (by simpa using sq_eq_zero_iff.mp hre)
        (by simpa using sq_eq_zero_iff.mp him))
    · have hre : b.re ^ 2 = 0 := le_antisymm (by nlinarith [sq_nonneg b.im]) (sq_nonneg b.re)
      have him : b.im ^ 2 = 0 := le_antisymm (by nlinarith [sq_nonneg b.re]) (sq_nonneg b.im)
      exact Or.inr (ceq (by simpa using sq_eq_zero_iff.mp hre)
        (by simpa using sq_eq_zero_iff.mp him))

end Cplx

/-! Polynomial coefficient lists, highest-degree-first, with the numpy
operations the script relies on: polyadd aligns the two lists by padding
the shorter one with zeros on the left and adds elementwise; polymul is
the convolution of the two coefficient lists. -/

/-- Left-pad a coefficient list with zeros to length n (np.polyadd alignment). -/
def leftPad (n : Nat) (l : List Cplx) : List Cplx :=
  List.replicate (n - l.length) (0 : Cplx) ++ l

/-- Model of np.polyadd on highest-first coefficient lists. -/
def polyAdd (a b : List Cplx) : List Cplx :=
  List.zipWith (· + ·) (leftPad (max a.length b.length) a) (leftPad (max a.length b.length) b)

/-- Model of np.polymul (convolution of coefficient lists, highest-first). -/
def polyMul : List Cplx → List Cplx → List Cplx
  | [], _ => []
  | a :: as, b => polyAdd (b.map (fun x => a * x) ++ List.replicate as.length 0) (polyMul as b)

/-- A coefficient list denoting the zero polynomial (every entry zero; the
empty list also denotes the zero polynomial). -/
def IsZeroPoly (l : List Cplx) : Prop := ∀ c ∈ l, c = 0

instance : DecidablePred IsZeroPoly := fun l => List.decidableBAll _ l

/-- Transfer function: numerator and denominator coefficient lists,
highest-degree-first, exactly as control.tf stores them. -/
structure TF where
  num : List Cplx
  den : List Cplx
deriving DecidableEq, Repr

/-- Semantic denotation of a highest-first coefficient list as a polynomial
(Horner form). -/
noncomputable def toPoly (l : List Cplx) : Polynomial Cplx :=
  l.foldl (fun acc c => acc * Polynomial.X + Polynomial.C c) 0

theorem toPoly_nil : toPoly [] = 0 := rfl

theorem foldl_toPoly (l : List Cplx) (acc : Polynomial Cplx) :
    l.foldl (fun a c => a * Polynomial.X + Polynomial.C c) acc
      = acc * Polynomial.X ^ l.length + toPoly l := by
  induction l generalizing acc with
  | nil => simp [toPoly]
  | cons c t ih =>
    show List.foldl _ (acc * Polynomial.X + Polynomial.C c) t = _
    rw [ih]
    have h0 : toPoly (c :: t)
        = (0 * Polynomial.X + Polynomial.C c) * Polynomial.X ^ t.length + toPoly t := by
      show List.foldl _ (0 * Polynomial.X + Polynomial.C c) t = _
      rw [ih]
    rw [h0]
    simp [List.length_cons]
    ring

theorem toPoly_cons (c : Cplx) (l : List Cplx) :
    toPoly (c :: l) = Polynomial.C c * Polynomial.X ^ l.length + toPoly l := by
  have := foldl_toPoly l (0 * Polynomial.X + Polynomial.C c)
  show List.foldl _ (0 * Polynomial.X + Polynomial.C c) l = _
  rw [this]
  ring

theorem toPoly_zero_cons (l : List Cplx) : toPoly ((0 : Cplx) :: l) = toPoly l := by
  rw [toPoly_cons]
  simp

theorem toPoly_replicate_zero_append (k : Nat) (l : List Cplx) :
    toPoly (List.replicate k (0 : Cplx) ++ l) = toPoly l := by
  induction k with
  | zero => simp
  | succ n ih => simpa [List.replicate_succ, toPoly_zero_cons] using ih

theorem toPoly_leftPad (n : Nat) (l : List Cplx) : toPoly (leftPad n l) = toPoly l :=
  toPoly_replicate_zero_append _ l

theorem length_leftPad (n : Nat) (l : List Cplx) :
    (leftPad n l).length = max n l.length := by
  simp [leftPad]
  omega

theorem toPoly_append_replicate (l : List Cplx) (m : Nat) :
    toPoly (l ++ List.replicate m (0 : Cplx)) = toPoly l * Polynomial.X ^ m := by
  show List.foldl _ 0 (l ++ List.replicate m 0) = _
  rw [List.foldl_append]
  have hrep : ∀ (k : Nat) (acc : Polynomial Cplx),
      List.foldl (fun a c => a * Polynomial.X + Polynomial.C c) acc (List.replicate k 0)
        = acc * Polynomial.X ^ k := by
    intro k
    induction k with
    | zero => intro acc; simp
    | succ n ih =>
      intro acc
      rw [List.replicate_succ, List.foldl_cons, ih]
      simp
      ring
  rw [hrep]
  rfl

theorem toPoly_map_mul (a : Cplx) (l : List Cplx) :
    toPoly (l.map (fun x => a * x)) = Polynomial.C a * toPoly l := by
  have key : ∀ (t : List Cplx) (acc : Polynomial Cplx),
      List.foldl (fun u c => u * Polynomial.X + Polynomial.C c) (Polynomial.C a * acc)
          (t.map (fun x => a * x))
        = Polynomial.C a * List.foldl (fun u c => u * Polynomial.X + Polynomial.C c) acc t := by
    intro t
    induction t with
    | nil => intro acc; simp
    | cons c t ih =>
      intro acc
      rw [List.map_cons, List.foldl_cons, List.foldl_cons]
      have : Polynomial.C a * acc * Polynomial.X + Polynomial.C (a * c)
          = Polynomial.C a * (acc * Polynomial.X + Polynomial.C c) := by
        rw [map_mul]
        ring
      rw [this, ih]
  have := key l 0
  simpa [toPoly] using this

theorem toPoly_zipWith_add (a b : List Cplx) (h : a.length = b.length) :
    toPoly (List.zipWith (· + ·) a b) = toPoly a + toPoly b := by
  induction a generalizing b with
  | nil =>
    cases b with
    | nil => simp [toPoly_nil]
    | cons y ys => simp at h
  | cons x xs ih =>
    cases b with
    | nil => simp at h
    | cons y ys =>
      simp only [List.length_cons, Nat.succ_inj] at h
      rw [List.zipWith_cons_cons, toPoly_cons, toPoly_cons, toPoly_cons, ih ys h]
      have hlen : (List.zipWith (· + ·) xs ys).length = xs.length := by
        rw [List.length_zipWith, h, Nat.min_self]
      rw [hlen, map_add, h]
      ring

theorem toPoly_polyAdd (a b : List Cplx) :
    toPoly (polyAdd a b) = toPoly a + toPoly b := by
  unfold polyAdd
  rw [toPoly_zipWith_add, toPoly_leftPad, toPoly_leftPad]
  rw [length_leftPad, length_leftPad]
  omega

theorem toPoly_polyMul (a b : List Cplx) :
    toPoly (polyMul a b) = toPoly a * toPoly b := by
  induction a with
  | nil => simp [polyMul, toPoly_nil]
  | cons x xs ih =>
    show toPoly (polyAdd (b.map (fun c => x * c) ++ List.replicate xs.length 0) (polyMul xs b)) = _
    rw [toPoly_polyAdd, toPoly_append_replicate, toPoly_map_mul, ih, toPoly_cons]
    ring

theorem toPoly_degree_lt (l : List Cplx) :
    (toPoly l).degree < (l.length : WithBot Nat) := by
  induction l with
  | nil =>
    rw [toPoly_nil, Polynomial.degree_zero]
    exact WithBot.bot_lt_coe 0
  | cons c t ih =>
    rw [toPoly_cons]
    have h1 : (Polynomial.C c * Polynomial.X ^ t.length).degree
        ≤ (t.length : WithBot Nat) := Polynomial.degree_C_mul_X_pow_le _ _
    have hlen : ((c :: t).length : WithBot Nat) = (t.length : WithBot Nat) + 1 := by
      rw [List.length_cons]
      exact_mod_cast rfl
    have hstep : (t.length : WithBot Nat) < ((c :: t).length : WithBot Nat) := by
      rw [hlen]
      exact_mod_cast Nat.lt_succ_self t.length
    exact lt_of_le_of_lt (Polynomial.degree_add_le _ _)
      (max_lt (lt_of_le_of_lt h1 hstep) (lt_trans ih hstep))

theorem toPoly_eq_zero_iff (l : List Cplx) : toPoly l = 0 ↔ IsZeroPoly l := by
  induction l with
  | nil => simp [toPoly_nil, IsZeroPoly]
  | cons c t ih =>
    constructor
    · intro h
      rw [toPoly_cons] at h
      have hc : c = 0 := by
        have hcoeff := congrArg (fun q => Polynomial.coeff q t.length) h
        simp only [Polynomial.coeff_add, Polynomial.coeff_C_mul, Polynomial.coeff_X_pow,
          Polynomial.coeff_zero] at hcoeff
        norm_num at hcoeff
        rwa [Polynomial.coeff_eq_zero_of_degree_lt (toPoly_degree_lt t), add_zero] at hcoeff
      have ht : toPoly t = 0 := by
        rw [hc] at h
        simpa using h
      intro x hx
      rcases List.mem_cons.mp hx with h1 | h2
      · rw [h1, hc]
      · exact (ih.mp ht) x h2
    · intro h
      have hc : c = 0 := h c (List.mem_cons_self c t)
      have ht : IsZeroPoly t := fun x hx => h x (List.mem_cons_of_mem c hx)
      rw [toPoly_cons, hc, ih.mpr ht]
      simp

theorem isZeroPoly_polyMul_iff (a b : List Cplx) :
    IsZeroPoly (polyMul a b) ↔ IsZeroPoly a ∨ IsZeroPoly b := by
  rw [← toPoly_eq_zero_iff, toPoly_polyMul, mul_eq_zero, toPoly_eq_zero_iff, toPoly_eq_zero_iff]

theorem isZeroPoly_polyAdd_iff (a b : List Cplx) :
    IsZeroPoly (polyAdd a b) ↔ toPoly a + toPoly b = 0 := by
  rw [← toPoly_eq_zero_iff, toPoly_polyAdd]

/-! Transfer-function arithmetic as implemented by the control library on
coefficient lists: serial composition multiplies numerators and denominators,
addition cross-multiplies and adds, division multiplies by the flipped
operand.  No pole/zero cancellation is performed by these operators. -/

/-- Product of two transfer functions (control.TransferFunction.__mul__). -/
def tfMul (g h : TF) : TF := ⟨polyMul g.num h.num, polyMul g.den h.den⟩

/-- Sum of two transfer functions (control.TransferFunction.__add__). -/
def tfAdd (g h : TF) : TF :=
  ⟨polyAdd (polyMul g.num h.den) (polyMul h.num g.den), polyMul g.den h.den⟩

/-- Quotient of two transfer functions (control.TransferFunction.__truediv__):
numerator times flipped denominator, no cancellation. -/
def tfDivRaw (g h : TF) : TF := ⟨polyMul g.num h.den, polyMul g.den h.num⟩

/-- The identity transfer function tf([1], [1]), also the safe fallback system. -/
def one_tf : TF := ⟨[1], [1]⟩

/-- Modelled from the spec: the transfer-function constructor
(build_from_coefficients) of the external control library rejects a
denominator that is empty or identically zero with InvalidSystemError; the
library code itself is not part of this repository. -/
def tf (num den : List Cplx) : Except String TF :=
  if IsZeroPoly den then Except.error "InvalidSystemError: denominator is zero"
  else Except.ok ⟨num, den⟩

/-- Closed loop as the script computes it (line 98): open_loop / (1 + open_loop),
evaluated with the library operators above. -/
def closed_loop (ol : TF) : TF := tfDivRaw ol (tfAdd one_tf ol)

/-- Closed-loop construction including the constructor check on the resulting
denominator; the construction fails (SingularFeedbackError of the spec taxonomy)
exactly when that coefficient list is identically zero.  The script does not
wrap this step in any error handler. -/
def closed_loopE (ol : TF) : Except String TF :=
  if IsZeroPoly (closed_loop ol).den then
    Except.error "SingularFeedbackError: closed-loop denominator is zero"
  else Except.ok (closed_loop ol)

/-- The closed loop as the spec text describes it: numerator stays open.num,
denominator becomes open.den + open.num (stated for comparison with the
code-level reduction above). -/
def closedLoopSpec (ol : TF) : TF := ⟨ol.num, polyAdd ol.den ol.num⟩

/-- Controller kind selected in the sidebar. -/
inductive ReglerTyp
  | P
  | PI
  | PD
deriving DecidableEq, Repr

/-- Controller transfer function (lines 66-77): P is tf([Kp],[1]); PI is
tf([Kp*Ki, Kp],[1,0]); PD is tf([Kd, Kp],[1]). -/
def controller (rt : ReglerTyp) (Kp Ki Kd : ℚ) : TF :=
  match rt with
  | ReglerTyp.PI => ⟨[Cplx.ofRat (Kp * Ki), Cplx.ofRat Kp], [1, 0]⟩
  | ReglerTyp.PD => ⟨[Cplx.ofRat Kd, Cplx.ofRat Kp], [1]⟩
  | ReglerTyp.P => ⟨[Cplx.ofRat Kp], [1]⟩

/-- Lead/lag element (lines 84-93): tf([z, 1], [p, 1]) when enabled, identity
otherwise. -/
def leadlag (enabled : Bool) (z p : ℚ) : TF :=
  if enabled then ⟨[Cplx.ofRat z, 1], [Cplx.ofRat p, 1]⟩ else ⟨[1], [1]⟩

/-- Stability verdict (line 102): every closed-loop pole has strictly negative
real part. -/
def is_stable (pole_list : List Cplx) : Bool :=
  pole_list.all (fun q => decide (q.re < 0))

/-- Oscillation verdict (line 105): some pole has negative real part and
non-zero imaginary part. -/
def is_oscillatory (pole_list : List Cplx) : Bool :=
  pole_list.any (fun q => decide (q.re < 0) && decide (q.im ≠ 0))

/-! Input parser (lines 20-31 of the script).  The script calls the Python
builtins complex() and float() on each token; those builtins are external to
the repository, so their literal grammar is modelled from the contract in the
spec (section 4.1): finite decimal literals, optionally signed, optionally
with exponent, and complex forms real, imaginary-j, and real±imaginary-j.
The inf/nan words, underscore separators and parenthesized forms of the
builtins are outside the model. -/

/-- Decimal digit run accumulated into a natural number. -/
def natOfDigits (l : List Char) : Nat :=
  l.foldl (fun n c => 10 * n + (c.toNat - 48)) 0

/-- Optional leading sign; returns whether a minus was consumed. -/
def parseSignB : List Char → Bool × List Char
  | '+' :: r => (false, r)
  | '-' :: r => (true, r)
  | l => (false, l)

/-- Unsigned mantissa: digits, digits.digits, or .digits. -/
def parseMantissa (l : List Char) : Option (ℚ × List Char) :=
  let ip := l.takeWhile Char.isDigit
  let r1 := l.dropWhile Char.isDigit
  match r1 with
  | '.' :: r2 =>
    let fp := r2.takeWhile Char.isDigit
    let r3 := r2.dropWhile Char.isDigit
    if ip = [] ∧ fp = [] then none
    else some ((natOfDigits (ip ++ fp) : ℚ) / (10 : ℚ) ^ fp.length, r3)
  | _ => if ip = [] then none else some ((natOfDigits ip : ℚ), r1)

/-- Apply a decimal exponent. -/
def applyExp (x : ℚ) (neg : Bool) (d : List Char) : ℚ :=
  if neg then x / (10 : ℚ) ^ natOfDigits d else x * (10 : ℚ) ^ natOfDigits d

/-- Exponent tail after the letter e: optional sign then digits. -/
def parseExpTail (x : ℚ) (l : List Char) : Option (ℚ × List Char) :=
  let sr := parseSignB l
  let d := sr.2.takeWhile Char.isDigit
  let r2 := sr.2.dropWhile Char.isDigit
  if d = [] then none else some (applyExp x sr.1 d, r2)

/-- Unsigned float literal with optional exponent. -/
def parseUFloat (l : List Char) : Option (ℚ × List Char) :=
  match parseMantissa l with
  | none => none
  | some (x, r) =>
    match r with
    | 'e' :: r2 => parseExpTail x r2
    | 'E' :: r2 => parseExpTail x r2
    | _ => some (x, r)

/-- Value with its sign applied. -/
def signedVal (neg : Bool) (x : ℚ) : ℚ := if neg then -x else x

/-- Modelled from the spec: Python float(token) on a space-free token
(finite decimal literals only). -/
def parseFloatTok (l : List Char) : Option ℚ :=
  let sr := parseSignB l
  match parseUFloat sr.2 with
  | some (x, []) => some (signedVal sr.1 x)
  | _ => none

/-- Imaginary tail of a real±imaginary literal: a float followed by j, or a
bare j meaning 1. -/
def imagTail (rp : ℚ) (negi : Bool) (r : List Char) : Option Cplx :=
  match parseUFloat r with
  | some (y, ['j']) => some ⟨rp, signedVal negi y⟩
  | some (y, ['J']) => some ⟨rp, signedVal negi y⟩
  | some _ => none
  | none => if r = ['j'] ∨ r = ['J'] then some ⟨rp, signedVal negi 1⟩ else none

/-- Modelled from the spec: Python complex(token) on a space-free token —
real, imaginary (ending in j), or real±imaginary literal forms. -/
def parseComplexTok (l : List Char) : Option Cplx :=
  let sr := parseSignB l
  match parseUFloat sr.2 with
  | some (x, rest) =>
    match rest with
    | [] => some ⟨signedVal sr.1 x, 0⟩
    | ['j'] => some ⟨0, signedVal sr.1 x⟩
    | ['J'] => some ⟨0, signedVal sr.1 x⟩
    | c :: r2 =>
      if c = '+' then imagTail (signedVal sr.1 x) false r2
      else if c = '-' then imagTail (signedVal sr.1 x) true r2
      else none
  | none =>
    match sr.2 with
    | ['j'] => some ⟨0, signedVal sr.1 1⟩
    | ['J'] => some ⟨0, signedVal sr.1 1⟩
    | _ => none

/-- Token conversion as the loop body does it (lines 27-30): complex() first,
float() as the fallback. -/
def parseToken (part : List Char) : Option Cplx :=
  match parseComplexTok part with
  | some c => some c
  | none => (parseFloatTok part).map (fun x => (⟨x, 0⟩ : Cplx))

/-- Split a character list at commas (model of str.split with a comma). -/
def splitComma : List Char → List (List Char)
  | [] => [[]]
  | c :: rest =>
    if c = ',' then [] :: splitComma rest
    else
      match splitComma rest with
      | [] => [[c]]
      | t :: ts => (c :: t) :: ts

/-- Message of the Python conversion failure that escapes the token loop (the
ParseError of the spec taxonomy); it names the offending token. -/
def parseErrMsg (part : List Char) : String :=
  "could not convert string to float: " ++ part.asString

/-- Convert the comma-separated parts in order, skipping empty parts and
stopping at the first bad token (lines 25-30). -/
def parseParts : List (List Char) → Except String (List Cplx)
  | [] => Except.ok []
  | t :: ts =>
    if t = [] then parseParts ts
    else
      match parseToken t with
      | some c => Except.map (fun l => c :: l) (parseParts ts)
      | none => Except.error (parseErrMsg t)

/-- parse_complex_list (lines 20-31): remove spaces, return the empty list for
the empty field, split on commas and convert every non-empty token. -/
def parse_complex_list (s : String) : Except String (List Cplx) :=
  let cleaned := s.data.filter (fun c => c ≠ ' ')
  if cleaned = [] then Except.ok []
  else parseParts (splitComma cleaned)

/-- The token lists the parser works through for a given input string. -/
def tokens (s : String) : List (List Char) :=
  splitComma (s.data.filter (fun c => c ≠ ' '))

/-- Plant construction in coefficient mode (lines 42-49): parse both fields,
build the system; any error is caught, surfaced as a message, and the system
replaced by the identity tf([1],[1]). -/
def plant (num_str den_str : String) : TF × Option String :=
  match parse_complex_list num_str with
  | Except.error e => (one_tf, some e)
  | Except.ok n =>
    match parse_complex_list den_str with
    | Except.error e => (one_tf, some e)
    | Except.ok d =>
      match tf n d with
      | Except.error e => (one_tf, some e)
      | Except.ok g => (g, none)

/-- End-to-end system construction as the script performs it: plant
construction with its error handler, total controller and lead/lag
composition (line 97), then the unguarded closed-loop reduction of line 98. -/
def pipeline (num_str den_str : String) (rt : ReglerTyp) (Kp Ki Kd : ℚ)
    (ll_on : Bool) (z p : ℚ) : Except String TF :=
  let pl := (plant num_str den_str).1
  let ol := tfMul (tfMul (controller rt Kp Ki Kd) pl) (leadlag ll_on z p)
  closed_loopE ol

/-! Frequency-response annotator (lines 147-174) and root-locus extras
(lines 210-230). -/

/-- Padding margin applied before rounding the phase range (line 147). -/
def phase_padding : ℚ := 10

/-- Phase-axis floor: multiple of 45 below the padded minimum (lines 149-150). -/
def round_down_45 (x : ℚ) : ℚ := 45 * ((Int.floor ((x - phase_padding) / 45) : ℤ) : ℚ)

/-- Phase-axis ceiling: multiple of 45 above the padded maximum (lines 151-152). -/
def round_up_45 (x : ℚ) : ℚ := 45 * ((Int.ceil ((x + phase_padding) / 45) : ℤ) : ℚ)

/-- Linearly interpolated phase-crossing frequency (lines 172-173). -/
def w_cross (w1 w2 p1 p2 target : ℚ) : ℚ :=
  w1 + ((target - p1) / (p2 - p1)) * (w2 - w1)

/-- Highlighted marker segment around a crossing (line 174): it spans 0.98 to
1.02 times the crossing frequency. -/
def marker_seg (wc : ℚ) : ℚ × ℚ := (wc * (98 / 100), wc * (102 / 100))

/-- Root-locus centroid (lines 222-229): skipped when the pole and zero counts
agree, otherwise (sum of poles − sum of zeros) / (n_p − n_z). -/
def ws (zeros_ol poles_ol : List Cplx) : Option Cplx :=
  if poles_ol.length ≠ zeros_ol.length then
    some ((poles_ol.sum - zeros_ol.sum)
      / Cplx.ofRat ((poles_ol.length : ℚ) - (zeros_ol.length : ℚ)))
  else none

/-- Slider range of the lead/lag parameters z and p (lines 85-86). -/
def slider_range (x : ℚ) : Prop := -10 ≤ x ∧ x ≤ 10

instance : DecidablePred slider_range := fun _ => instDecidableAnd

/-- Lead-zero marker -1/z (line 211); Python float division raises
ZeroDivisionError at z = 0, modelled as none. -/
def lead_zero (z : ℚ) : Option ℚ := if z = 0 then none else some (-1 / z)

/-- Lead-pole marker -1/p (line 212). -/
def lead_pole (p : ℚ) : Option ℚ := if p = 0 then none else some (-1 / p)

/-! Facts about the parser used by the claims below. -/

theorem splitComma_ne_nil (l : List Char) : splitComma l ≠ [] := by
  induction l with
  | nil => simp [splitComma]
  | cons c rest ih =>
    unfold splitComma
    by_cases hc : c = ','
    · simp [hc]
    · rw [if_neg hc]
      cases hsp : splitComma rest with
      | nil => simp
      | cons t ts => simp

theorem splitComma_cons (c : Char) (rest : List Char) :
    splitComma (c :: rest)
      = if c = ',' then [] :: splitComma rest
        else
          match splitComma rest with
          | [] => [[c]]
          | t :: ts => (c :: t) :: ts := rfl

theorem splitComma_append (a b : List Char) :
    splitComma (a ++ ',' :: b) = splitComma a ++ splitComma b := by
  induction a with
  | nil => simp [splitComma]
  | cons c cs ih =>
    by_cases hc : c = ','
    · subst hc
      rw [List.cons_append, splitComma_cons, splitComma_cons, if_pos rfl, if_pos rfl, ih]
      simp
    · obtain ⟨t, ts, hts⟩ : ∃ t ts, splitComma cs = t :: ts := by
        cases h : splitComma cs with
        | nil => exact absurd h (splitComma_ne_nil cs)
        | cons t ts => exact ⟨t, ts, rfl⟩
      rw [List.cons_append, splitComma_cons, splitComma_cons, if_neg hc, if_neg hc, ih, hts]
      simp

theorem parseParts_append_ok {xs ys : List (List Char)} {as bs : List Cplx}
    (hx : parseParts xs = Except.ok as) (hy : parseParts ys = Except.ok bs) :
    parseParts (xs ++ ys) = Except.ok (as ++ bs) := by
  induction xs generalizing as with
  | nil =>
    unfold parseParts at hx
    cases hx
    simpa using hy
  | cons t ts ih =>
    rw [List.cons_append]
    unfold parseParts at hx ⊢
    by_cases ht : t = []
    · rw [if_pos ht] at hx ⊢
      exact ih hx
    · rw [if_neg ht] at hx ⊢
      cases hpt : parseToken t with
      | none =>
        rw [hpt] at hx
        simp at hx
      | some c =>
        rw [hpt] at hx
        cases hrest : parseParts ts with
        | error e =>
          rw [hrest] at hx
          simp [Except.map] at hx
        | ok l =>
          rw [hrest] at hx
          simp [Except.map] at hx
          subst hx
          rw [ih hrest]
          simp [Except.map]

theorem parseParts_error {xs : List (List Char)}
    (hbad : ∃ t ∈ xs, t ≠ [] ∧ parseToken t = none) :
    ∃ t ∈ xs, t ≠ [] ∧ parseToken t = none
      ∧ parseParts xs = Except.error (parseErrMsg t) := by
  induction xs with
  | nil => simp at hbad
  | cons t ts ih =>
    by_cases ht : t = []
    · obtain ⟨u, hu, hune, hunone⟩ := hbad
      have hu2 : u ∈ ts := by
        rcases List.mem_cons.mp hu with h | h
        · exact absurd (h.trans ht) hune
        · exact h
      obtain ⟨v, hv, hvne, hvnone, hverr⟩ := ih ⟨u, hu2, hune, hunone⟩
      refine ⟨v, List.mem_cons_of_mem t hv, hvne, hvnone, ?_⟩
      unfold parseParts
      rw [if_pos ht]
      exact hverr
    · cases hpt : parseToken t with
      | none =>
        refine ⟨t, List.mem_cons_self t ts, ht, hpt, ?_⟩
        unfold parseParts
        rw [if_neg ht, hpt]
      | some c =>
        obtain ⟨u, hu, hune, hunone⟩ := hbad
        have hu2 : u ∈ ts := by
          rcases List.mem_cons.mp hu with h | h
          · rw [h] at hunone
            rw [hunone] at hpt
            exact absurd hpt (by simp)
          · exact h
        obtain ⟨v, hv, hvne, hvnone, hverr⟩ := ih ⟨u, hu2, hune, hunone⟩
        refine ⟨v, List.mem_cons_of_mem t hv, hvne, hvnone, ?_⟩
        unfold parseParts
        rw [if_neg ht, hpt, hverr]
        simp [Except.map]

theorem parse_eq_parseParts (s : String) :
    parse_complex_list s = parseParts (tokens s) := by
  unfold parse_complex_list tokens
  by_cases h : s.data.filter (fun c => c ≠ ' ') = []
  · rw [if_pos h, h]
    rfl
  · rw [if_neg h]

theorem toPoly_one : toPoly [(1 : Cplx)] = 1 := by
  rw [toPoly_cons]
  simp [toPoly_nil]

instance {ε α : Type} [DecidableEq ε] [DecidableEq α] : DecidableEq (Except ε α) := fun x y =>
  match x, y with
  | Except.ok a, Except.ok b => decidable_of_iff (a = b) (by simp)
  | Except.error a, Except.error b => decidable_of_iff (a = b) (by simp)
  | Except.ok _, Except.error _ => isFalse (by simp)
  | Except.error _, Except.ok _ => isFalse (by simp)

theorem one_tf_den_ne_zero : ¬ IsZeroPoly one_tf.den := by with_unfolding_all decide

/-! Claim theorems. -/

/-- C1 (counterexample): for the integrator open loop 1/s, the coefficient
lists computed by the code for open/(1 + open) — numerator num·den,
denominator den·(den + num) — differ from the num/(den + num) lists stated
by the spec. -/
theorem C1_closed_loop_coeff_cex :
    closed_loop ⟨[1], [1, 0]⟩ ≠ closedLoopSpec ⟨[1], [1, 0]⟩ := by with_unfolding_all decide

/-- C1 (amended): for every open loop whose denominator is not identically
zero, the closed loop computed by the code equals the num/(den + num)
construction of the spec as a rational function (the cross-multiplied
numerator and denominator polynomials agree), and its construction fails
exactly when 1 + open_loop — that is, den + num — is identically zero. -/
theorem C1_closed_loop_refines_spec (ol : TF) (hden : ¬ IsZeroPoly ol.den) :
    toPoly (closed_loop ol).num * toPoly (closedLoopSpec ol).den
      = toPoly (closedLoopSpec ol).num * toPoly (closed_loop ol).den
    ∧ ((∃ e, closed_loopE ol = Except.error e) ↔ IsZeroPoly (polyAdd ol.den ol.num)) := by
  have hD : toPoly ol.den ≠ 0 := fun h => hden ((toPoly_eq_zero_iff _).mp h)
  have hnum : (closed_loop ol).num = polyMul ol.num (polyMul [1] ol.den) := rfl
  have hdenc : (closed_loop ol).den
      = polyMul ol.den (polyAdd (polyMul [1] ol.den) (polyMul ol.num [1])) := rfl
  have hspecnum : (closedLoopSpec ol).num = ol.num := rfl
  have hspecden : (closedLoopSpec ol).den = polyAdd ol.den ol.num := rfl
  have key : IsZeroPoly (closed_loop ol).den ↔ IsZeroPoly (polyAdd ol.den ol.num) := by
    rw [← toPoly_eq_zero_iff, ← toPoly_eq_zero_iff, hdenc, toPoly_polyMul, toPoly_polyAdd,
      toPoly_polyAdd, toPoly_polyMul, toPoly_polyMul, toPoly_one, mul_eq_zero]
    constructor
    · rintro (h | h)
      · exact absurd h hD
      · linear_combination h
    · intro h
      right
      linear_combination h
  constructor
  · rw [hnum, hdenc, hspecnum, hspecden, toPoly_polyMul, toPoly_polyMul, toPoly_polyMul,
      toPoly_polyAdd, toPoly_polyAdd, toPoly_polyMul, toPoly_polyMul, toPoly_one]
    ring
  · unfold closed_loopE
    by_cases hz : IsZeroPoly (closed_loop ol).den
    · rw [if_pos hz]
      exact ⟨fun _ => key.mp hz, fun _ => ⟨_, rfl⟩⟩
    · rw [if_neg hz]
      constructor
      · rintro ⟨e, he⟩
        exact absurd he (by simp)
      · intro h
        exact absurd (key.mpr h) hz

/-- Witness for C1 at the integrator open loop 1/s. -/
theorem C1_closed_loop_refines_spec_witness :
    toPoly (closed_loop ⟨[1], [1, 0]⟩).num * toPoly (closedLoopSpec ⟨[1], [1, 0]⟩).den
      = toPoly (closedLoopSpec ⟨[1], [1, 0]⟩).num * toPoly (closed_loop ⟨[1], [1, 0]⟩).den
    ∧ ((∃ e, closed_loopE ⟨[1], [1, 0]⟩ = Except.error e)
        ↔ IsZeroPoly (polyAdd [1, 0] [1])) :=
  C1_closed_loop_refines_spec ⟨[1], [1, 0]⟩ (by with_unfolding_all decide)

/-- C2: is_stable is true exactly when every pole has strictly negative real
part; poles {-1, -2} and {-1±2i} classify as stable, while {1, -2} and the
marginal {0, -1} classify as unstable. -/
theorem C2_is_stable_characterization :
    (∀ pole_list : List Cplx, is_stable pole_list = true ↔ ∀ q ∈ pole_list, q.re < 0)
    ∧ is_stable [⟨-1, 0⟩, ⟨-2, 0⟩] = true
    ∧ is_stable [⟨-1, 2⟩, ⟨-1, -2⟩] = true
    ∧ is_stable [⟨1, 0⟩, ⟨-2, 0⟩] = false
    ∧ is_stable [⟨0, 0⟩, ⟨-1, 0⟩] = false := by
  refine ⟨fun pl => ?_, by with_unfolding_all decide, by with_unfolding_all decide, by with_unfolding_all decide, by with_unfolding_all decide⟩
  simp [is_stable, List.all_eq_true]

/-- Witness for C2: the characterization applied to a concrete pole list. -/
theorem C2_is_stable_witness : is_stable [⟨-3, 0⟩] = true :=
  (C2_is_stable_characterization.1 [⟨-3, 0⟩]).mpr (by with_unfolding_all decide)

/-- C3: is_oscillatory is true exactly when some pole has strictly negative
real part and non-zero imaginary part; a pole with positive real part and
non-zero imaginary part alone does not set the flag, and the flag is
independent of stability. -/
theorem C3_is_oscillatory_characterization :
    (∀ pole_list : List Cplx,
        is_oscillatory pole_list = true ↔ ∃ q ∈ pole_list, q.re < 0 ∧ q.im ≠ 0)
    ∧ is_oscillatory [⟨-1, 2⟩, ⟨-1, -2⟩] = true
    ∧ is_oscillatory [⟨-1, 0⟩, ⟨-2, 0⟩] = false
    ∧ is_oscillatory [⟨1, 2⟩, ⟨1, -2⟩] = false
    ∧ is_oscillatory [⟨1, 2⟩, ⟨-1, 1⟩] = true := by
  refine ⟨fun pl => ?_, by with_unfolding_all decide, by with_unfolding_all decide, by with_unfolding_all decide, by with_unfolding_all decide⟩
  simp [is_oscillatory, List.any_eq_true]

/-- Witness for C3: the characterization applied to a concrete pole list. -/
theorem C3_is_oscillatory_witness : is_oscillatory [⟨-2, 5⟩] = true :=
  (C3_is_oscillatory_characterization.1 [⟨-2, 5⟩]).mpr ⟨⟨-2, 5⟩, by with_unfolding_all decide, by with_unfolding_all decide, by with_unfolding_all decide⟩

/-- C4: the controller transfer function by kind, for slider values in range:
P gives [Kp]/[1], PI gives [Kp·Ki, Kp]/[1, 0], PD gives [Kd, Kp]/[1]. -/
theorem C4_controller_tf (Kp Ki Kd : ℚ)
    (_hKp : 0 ≤ Kp ∧ Kp ≤ 10) (_hKi : 0 ≤ Ki ∧ Ki ≤ 10) (_hKd : 0 ≤ Kd ∧ Kd ≤ 5) :
    controller ReglerTyp.P Kp Ki Kd = ⟨[Cplx.ofRat Kp], [1]⟩
    ∧ controller ReglerTyp.PI Kp Ki Kd = ⟨[Cplx.ofRat (Kp * Ki), Cplx.ofRat Kp], [1, 0]⟩
    ∧ controller ReglerTyp.PD Kp Ki Kd = ⟨[Cplx.ofRat Kd, Cplx.ofRat Kp], [1]⟩ :=
  ⟨rfl, rfl, rfl⟩

/-- Witness for C4 at Kp = 1, Ki = 1, Kd = 1/2. -/
theorem C4_controller_tf_witness :
    controller ReglerTyp.P 1 1 (1 / 2) = ⟨[Cplx.ofRat 1], [1]⟩
    ∧ controller ReglerTyp.PI 1 1 (1 / 2) = ⟨[Cplx.ofRat (1 * 1), Cplx.ofRat 1], [1, 0]⟩
    ∧ controller ReglerTyp.PD 1 1 (1 / 2) = ⟨[Cplx.ofRat (1 / 2), Cplx.ofRat 1], [1]⟩ :=
  C4_controller_tf 1 1 (1 / 2) (by norm_num) (by norm_num) (by norm_num)

/-- C5: at every 45-degree reference level lying strictly between two
consecutive phase samples, the crossing frequency equals the linear
interpolation formula, lies strictly between the two sample frequencies, and
the marker segment spans 0.98 to 1.02 times the crossing frequency. -/
theorem C5_phase_crossing_interpolation (w1 w2 p1 p2 target : ℚ)
    (_ht : ∃ k : ℤ, target = 45 * k) (hw : w1 < w2)
    (hcross : (p1 - target) * (p2 - target) < 0) :
    w_cross w1 w2 p1 p2 target = w1 + ((target - p1) / (p2 - p1)) * (w2 - w1)
    ∧ w1 < w_cross w1 w2 p1 p2 target
    ∧ w_cross w1 w2 p1 p2 target < w2
    ∧ marker_seg (w_cross w1 w2 p1 p2 target)
        = (w_cross w1 w2 p1 p2 target * (98 / 100),
           w_cross w1 w2 p1 p2 target * (102 / 100)) := by
  have hα : 0 < (target - p1) / (p2 - p1) ∧ (target - p1) / (p2 - p1) < 1 := by
    rcases mul_neg_iff.mp hcross with ⟨h1, h2⟩ | ⟨h1, h2⟩
    · exact ⟨div_pos_iff.mpr (Or.inr ⟨by linarith, by linarith⟩),
        div_lt_one_iff.mpr (Or.inr (Or.inr ⟨by linarith, by linarith⟩))⟩
    · exact ⟨div_pos_iff.mpr (Or.inl ⟨by linarith, by linarith⟩),
        div_lt_one_iff.mpr (Or.inl ⟨by linarith, by linarith⟩)⟩
  have hup : 0 < ((target - p1) / (p2 - p1)) * (w2 - w1) := mul_pos hα.1 (by linarith)
  have hdn : 0 < (1 - (target - p1) / (p2 - p1)) * (w2 - w1) :=
    mul_pos (by linarith [hα.2]) (by linarith)
  have hexp : (1 - (target - p1) / (p2 - p1)) * (w2 - w1)
      = (w2 - w1) - ((target - p1) / (p2 - p1)) * (w2 - w1) := by ring
  refine ⟨rfl, ?_, ?_, rfl⟩
  · unfold w_cross
    linarith
  · unfold w_cross
    linarith [hdn, hexp]

/-- Witness for C5 at the -45-degree level between samples (1, -40) and
(2, -50). -/
theorem C5_phase_crossing_interpolation_witness :
    w_cross 1 2 (-40) (-50) (-45) = 1 + (((-45) - (-40)) / ((-50) - (-40))) * (2 - 1)
    ∧ 1 < w_cross 1 2 (-40) (-50) (-45)
    ∧ w_cross 1 2 (-40) (-50) (-45) < 2
    ∧ marker_seg (w_cross 1 2 (-40) (-50) (-45))
        = (w_cross 1 2 (-40) (-50) (-45) * (98 / 100),
           w_cross 1 2 (-40) (-50) (-45) * (102 / 100)) :=
  C5_phase_crossing_interpolation 1 2 (-40) (-50) (-45) ⟨-1, by norm_num⟩ (by norm_num)
    (by norm_num)

/-- C6: no centroid is produced when the pole and zero counts agree; otherwise
the centroid is (sum of poles − sum of zeros)/(n_p − n_z), and poles {-1, -3}
with zeros {-2} give -2. -/
theorem C6_centroid :
    (∀ zeros_ol poles_ol : List Cplx, poles_ol.length = zeros_ol.length →
        ws zeros_ol poles_ol = none)
    ∧ (∀ zeros_ol poles_ol : List Cplx, poles_ol.length ≠ zeros_ol.length →
        ws zeros_ol poles_ol
          = some ((poles_ol.sum - zeros_ol.sum)
              / Cplx.ofRat ((poles_ol.length : ℚ) - (zeros_ol.length : ℚ))))
    ∧ ws [⟨-2, 0⟩] [⟨-1, 0⟩, ⟨-3, 0⟩] = some ⟨-2, 0⟩ := by
  refine ⟨fun zs ps h => ?_, fun zs ps h => ?_, by with_unfolding_all decide⟩
  · unfold ws
    rw [if_neg (not_not_intro h)]
  · unfold ws
    rw [if_pos h]

/-- Witness for C6: both branches of the centroid computation at concrete
zero/pole sets. -/
theorem C6_centroid_witness :
    ws [⟨-4, 0⟩] [⟨-6, 0⟩] = none
    ∧ ws [] [⟨-3, 0⟩, ⟨-5, 0⟩]
        = some ((([⟨-3, 0⟩, ⟨-5, 0⟩] : List Cplx).sum - ([] : List Cplx).sum)
            / Cplx.ofRat (((([⟨-3, 0⟩, ⟨-5, 0⟩] : List Cplx).length : ℚ))
                - ((([] : List Cplx).length : ℚ)))) :=
  ⟨C6_centroid.1 [⟨-4, 0⟩] [⟨-6, 0⟩] rfl,
   C6_centroid.2.1 [] [⟨-3, 0⟩, ⟨-5, 0⟩] (by with_unfolding_all decide)⟩

/-- C7: an input containing a token that parses neither as a complex nor as a
real literal makes the parser fail with an error naming an offending token,
and the plant constructor substitutes the identity system and surfaces the
message instead of crashing. -/
theorem C7_parse_error_handling (s num_str den_str : String)
    (hs : ∃ t ∈ tokens s, t ≠ [] ∧ parseToken t = none)
    (hnd : (∃ t ∈ tokens num_str, t ≠ [] ∧ parseToken t = none)
         ∨ (∃ t ∈ tokens den_str, t ≠ [] ∧ parseToken t = none)) :
    (∃ t ∈ tokens s, t ≠ [] ∧ parseToken t = none
        ∧ parse_complex_list s = Except.error (parseErrMsg t))
    ∧ (plant num_str den_str).1 = one_tf
    ∧ (plant num_str den_str).2 ≠ none := by
  refine ⟨?_, ?_⟩
  · obtain ⟨t, htm, htne, htnone, herr⟩ := parseParts_error hs
    exact ⟨t, htm, htne, htnone, by rw [parse_eq_parseParts]; exact herr⟩
  · rcases hnd with hn | hd
    · obtain ⟨t, htm, htne, htnone, herr⟩ := parseParts_error hn
      have hp : parse_complex_list num_str = Except.error (parseErrMsg t) := by
        rw [parse_eq_parseParts]
        exact herr
      unfold plant
      rw [hp]
      exact ⟨rfl, by simp⟩
    · obtain ⟨t, htm, htne, htnone, herr⟩ := parseParts_error hd
      have hp : parse_complex_list den_str = Except.error (parseErrMsg t) := by
        rw [parse_eq_parseParts]
        exact herr
      unfold plant
      cases hn2 : parse_complex_list num_str with
      | error e => exact ⟨rfl, by simp⟩
      | ok n =>
        rw [hp]
        exact ⟨rfl, by simp⟩

/-- Witness for C7 on the malformed input abc. -/
theorem C7_parse_error_handling_witness :
    (∃ t ∈ tokens "abc", t ≠ [] ∧ parseToken t = none
        ∧ parse_complex_list "abc" = Except.error (parseErrMsg t))
    ∧ (plant "abc" "1").1 = one_tf
    ∧ (plant "abc" "1").2 ≠ none :=
  C7_parse_error_handling "abc" "abc" "1" (by with_unfolding_all decide)
    (Or.inl (by with_unfolding_all decide))

/-- C8 (counterexample): with plant numerator "-1" and denominator "1", unity
P controller and no lead/lag element, 1 + open_loop is identically zero and
the closed-loop construction error escapes the pipeline: no handler around
line 98 catches it. -/
theorem C8_uncaught_feedback_error_cex :
    pipeline "-1" "1" ReglerTyp.P 1 0 0 false 1 2
      = Except.error "SingularFeedbackError: closed-loop denominator is zero" := by
  with_unfolding_all rfl

/-- C8 (amended): parse errors and invalid-denominator errors are caught at
plant construction and replaced by the identity system, so the plant handed on
to composition always has a denominator that is not identically zero; the
closed-loop reduction itself has no such handler (see the counterexample). -/
theorem C8_plant_errors_caught (num_str den_str : String) :
    ¬ IsZeroPoly (plant num_str den_str).1.den
    ∧ ((plant num_str den_str).2 ≠ none → (plant num_str den_str).1 = one_tf) := by
  unfold plant
  cases h1 : parse_complex_list num_str with
  | error e =>
    dsimp only
    exact ⟨one_tf_den_ne_zero, fun _ => rfl⟩
  | ok n =>
    cases h2 : parse_complex_list den_str with
    | error e =>
      dsimp only
      exact ⟨one_tf_den_ne_zero, fun _ => rfl⟩
    | ok d =>
      dsimp only
      unfold tf
      by_cases hz : IsZeroPoly d
      · rw [if_pos hz]
        dsimp only
        exact ⟨one_tf_den_ne_zero, fun _ => rfl⟩
      · rw [if_neg hz]
        dsimp only
        exact ⟨hz, fun hcon => absurd rfl hcon⟩

/-- Witness for C8 on a malformed numerator input. -/
theorem C8_plant_errors_caught_witness :
    ¬ IsZeroPoly (plant "abc" "1").1.den
    ∧ ((plant "abc" "1").2 ≠ none → (plant "abc" "1").1 = one_tf) :=
  C8_plant_errors_caught "abc" "1"

/-- C9: the empty input parses to the empty sequence, "1, 2, 1" parses to
[1, 2, 1], "-1+2j, 3" parses to [-1+2i, 3], and parsing a comma-joined pair of
successfully parsed inputs yields the two sequences appended in order. -/
theorem C9_parse_behavior :
    parse_complex_list "" = Except.ok []
    ∧ parse_complex_list "1, 2, 1" = Except.ok [⟨1, 0⟩, ⟨2, 0⟩, ⟨1, 0⟩]
    ∧ parse_complex_list "-1+2j, 3" = Except.ok [⟨-1, 2⟩, ⟨3, 0⟩]
    ∧ ∀ s1 s2 : String, ∀ xs ys : List Cplx,
        parse_complex_list s1 = Except.ok xs → parse_complex_list s2 = Except.ok ys →
        parse_complex_list (s1 ++ "," ++ s2) = Except.ok (xs ++ ys) := by
  refine ⟨by with_unfolding_all decide, by with_unfolding_all decide,
    by with_unfolding_all decide, ?_⟩
  intro s1 s2 xs ys h1 h2
  rw [parse_eq_parseParts] at h1 h2 ⊢
  have hfilter : (s1 ++ "," ++ s2).data.filter (fun c => c ≠ ' ')
      = (s1.data.filter (fun c => c ≠ ' ')) ++ ',' :: (s2.data.filter (fun c => c ≠ ' ')) := by
    rw [String.data_append, String.data_append]
    simp [List.filter_append]
  unfold tokens at h1 h2 ⊢
  rw [hfilter, splitComma_append]
  exact parseParts_append_ok h1 h2

/-- Witness for C9: the append property applied to the inputs 1 and 2. -/
theorem C9_parse_behavior_witness :
    parse_complex_list ("1" ++ "," ++ "2") = Except.ok ([⟨1, 0⟩] ++ [⟨2, 0⟩]) :=
  C9_parse_behavior.2.2.2 "1" "2" [⟨1, 0⟩] [⟨2, 0⟩] (by with_unfolding_all decide)
    (by with_unfolding_all decide)

/-- C10: the z and p sliders range over [-10, 10], which contains 0, and at
z = 0 (or p = 0) the root-locus marker division -1/z (-1/p) is undefined —
Python raises ZeroDivisionError there — so the slider ranges do not keep the
parameters away from the degenerate value; away from 0 the markers are
defined and equal -1/z and -1/p. -/
theorem C10_zero_slider_division :
    slider_range 0
    ∧ lead_zero 0 = none
    ∧ lead_pole 0 = none
    ∧ lead_zero 1 = some (-1 / 1)
    ∧ lead_pole 2 = some (-1 / 2) := by
  refine ⟨by with_unfolding_all decide, rfl, rfl, ?_, ?_⟩
  · unfold lead_zero
    norm_num
  · unfold lead_pole
    norm_num
